import Mathlib

/-!
Verification development for the aweb single-file async HTTP server
(src/aweb.py).  Python byte strings and (UTF-8) text strings are both
modelled as List Nat of byte values; the UTF-8 decode/encode step is the
identity on that representation (all inputs exercised here are valid
UTF-8).  Fallible Python code (int(), url_decode on bad hex) is
modelled with Option / Except.
-/

/-- Byte values of an ASCII string literal (all literals used are ASCII,
so this coincides with the UTF-8 bytes). -/
def bts (s : String) : List Nat := s.toList.map Char.toNat

/-- ASCII whitespace, the set stripped by Python bytes.strip / split(). -/
def wsByte (b : Nat) : Bool := b == 32 || b == 9 || b == 10 || b == 13 || b == 11 || b == 12

def lstripP (p : Nat → Bool) (l : List Nat) : List Nat := l.dropWhile p

def rstripP (p : Nat → Bool) (l : List Nat) : List Nat := (l.reverse.dropWhile p).reverse

/-- Python bytes.strip() / str.strip() with no argument. -/
def stripWs (l : List Nat) : List Nat := rstripP wsByte (lstripP wsByte l)

/-- ASCII lowercasing, as Python .lower() on the ASCII data seen here. -/
def lowerByte (b : Nat) : Nat := if 65 ≤ b ∧ b ≤ 90 then b + 32 else b

def lowerStr (l : List Nat) : List Nat := l.map lowerByte

/-- Python b.split(sep): split at every separator byte, keeping empties. -/
def splitOnP (p : Nat → Bool) : List Nat → List (List Nat)
  | [] => [[]]
  | b :: rest =>
    let r := splitOnP p rest
    if p b then [] :: r
    else
      match r with
      | [] => [[b]]
      | h :: t => (b :: h) :: t

/-- Python b.split(): split on whitespace runs, discarding empties. -/
def splitWs (l : List Nat) : List (List Nat) :=
  (splitOnP wsByte l).filter (fun s => !s.isEmpty)

/-- Python b.split(sep, 1): split at the first occurrence only. -/
def splitOnceB (sep : Nat) : List Nat → List Nat × Option (List Nat)
  | [] => ([], none)
  | b :: rest =>
    if b = sep then ([], some rest)
    else
      let r := splitOnceB sep rest
      (b :: r.1, r.2)

/-- Python b.replace(old, new) for single bytes. -/
def replaceByte (a c : Nat) (l : List Nat) : List Nat :=
  l.map (fun x => if x = a then c else x)

/-- Concatenation of chunks (used in place of bytearray.extend loops). -/
def joinAll : List (List Nat) → List Nat
  | [] => []
  | h :: t => h ++ joinAll t

/-- Hexadecimal digit value, as used by Python int(_, 16) on the
two-character escapes produced/consumed here (int() additionally accepts
signs and whitespace, which no claim exercises; such inputs yield none). -/
def hexDigit (c : Nat) : Option Nat :=
  if 48 ≤ c ∧ c ≤ 57 then some (c - 48)
  else if 65 ≤ c ∧ c ≤ 70 then some (c - 55)
  else if 97 ≤ c ∧ c ≤ 102 then some (c - 87)
  else none

/-- Python int(_) on a decimal byte string (none on empty/non-digit). -/
def pyIntDec (l : List Nat) : Option Nat :=
  if l.isEmpty then none
  else l.foldl (fun acc c =>
    acc.bind fun a =>
      if 48 ≤ c ∧ c ≤ 57 then some (a * 10 + (c - 48)) else none) (some 0)

/-- src/aweb.py url_decode, at the byte level (before the final UTF-8
decode, which is the identity on this representation).  Faithful to the
source: the byte compared against is 0x28 (the source comment says plus,
but the code tests 0x28), and a percent escape is consumed only when two
more bytes follow. -/
def url_decode : List Nat → Option (List Nat)
  | [] => some []
  | 40 :: rest => (url_decode rest).map (fun r => 32 :: r)
  | 37 :: h1 :: h2 :: rest =>
    match hexDigit h1, hexDigit h2 with
    | some a, some c => (url_decode rest).map (fun r => (16 * a + c) :: r)
    | _, _ => none
  | b :: rest => (url_decode rest).map (fun r => b :: r)

/-- Uppercase hexadecimal digit byte, as produced by the 02X format. -/
def upHexDigit (d : Nat) : Nat := if d < 10 then 48 + d else 55 + d

/-- src/aweb.py url_encode, per input byte.  The unescaped set is exactly
the source condition: uppercase letters, lowercase letters, 45, 46,
47 when not safe, 95, 126 (note: no digits). -/
def url_encode_byte (safe : Bool) (b : Nat) : List Nat :=
  if (65 ≤ b ∧ b ≤ 90) ∨ (97 ≤ b ∧ b ≤ 122) ∨ b = 45 ∨ b = 46 ∨
     (b = 47 ∧ safe = false) ∨ b = 95 ∨ b = 126
  then [b]
  else [37, upHexDigit (b / 16), upHexDigit (b % 16)]

/-- src/aweb.py url_encode over the UTF-8 bytes of the input string. -/
def url_encode (s : List Nat) (safe : Bool) : List Nat :=
  joinAll (s.map (url_encode_byte safe))

/-- src/aweb.py param_decode: split on 38, drop pairs with empty raw key,
split each pair at the first 61, percent-decode key (stripped) and value. -/
def param_decode_go : List (List Nat) → Option (List (List Nat × List Nat))
  | [] => some []
  | kv :: rest =>
    let s := splitOnceB 61 kv
    if s.1.isEmpty then param_decode_go rest
    else
      match url_decode (stripWs s.1),
            (match s.2 with | some v => url_decode v | none => some []) with
      | some k, some v => (param_decode_go rest).map (fun r => (k, v) :: r)
      | _, _ => none

def param_decode (b : List Nat) : Option (List (List Nat × List Nat)) :=
  param_decode_go (splitOnP (· == 38) b)

/-- src/aweb.py param_encode: ampersand-joined k=v pairs, keys with empty
name skipped, both sides percent-encoded with safe=False. -/
def param_encode : List (List Nat × List Nat) → List Nat
  | [] => []
  | (k, v) :: rest =>
    if k.isEmpty then param_encode rest
    else
      let item := url_encode k false ++ [61] ++ url_encode v false
      let r := param_encode rest
      if r.isEmpty then item else item ++ [38] ++ r

/-! ## Router (class Web) -/

/-- A route table entry, the tuple
(order, path, method, wildcard, func, args, kwargs) built by the
registration decorator.  The handler function together with its args and
kwargs is opaque to the router and is represented by an identifier. -/
structure Entry where
  order : Nat
  path : List Nat
  method : List Nat
  wc : Bool
  func : Nat
deriving DecidableEq

namespace Web

/-- The registration decorator's insertion-point search, exactly as in
the source: while i < n, break when self[i][0] <= order — the loop body
never increments i, so it is modelled with explicit fuel; none means the
loop has not terminated within that much fuel. -/
def insertSearch (tbl : List Entry) (order i : Nat) : Nat → Option Nat
  | 0 => none
  | fuel + 1 =>
    if h : i < tbl.length then
      if (tbl.get ⟨i, h⟩).order ≤ order then some i
      else insertSearch tbl order i fuel
    else some i

/-- Python list.insert(i, a) (here always called with i ≤ length). -/
def insertAt (i : Nat) (a : Entry) (l : List Entry) : List Entry :=
  l.take i ++ a :: l.drop i

/-- Web.__call__: lowercase the path, strip a trailing star as the
wildcard marker, compute order = (len(p) << 2) + (0 if wc else 1), find
the insertion point, then insert one entry per comma-separated method
(each stripped and lowercased) at that point. -/
def register (tbl : List Entry) (path method : List Nat) (func : Nat)
    (fuel : Nat) : Option (List Entry) :=
  let p0 := lowerStr path
  let wc := p0.getLast? = some 42
  let p := if p0.getLast? = some 42 then p0.dropLast else p0
  let order := 4 * p.length + (if wc then 0 else 1)
  match insertSearch tbl order 0 fuel with
  | none => none
  | some i =>
    some (((splitOnP (· == 44) method).map (fun m => lowerStr (stripWs m))).foldl
      (fun acc m => insertAt i ⟨order, p, m, wc, func⟩ acc) tbl)

/-- Web.find's per-entry test: (t[1]==p or (t[3] and p.startswith(t[1])))
and t[2]==m. -/
def matchesRoute (e : Entry) (p m : List Nat) : Bool :=
  (e.path == p || (e.wc && e.path.isPrefixOf p)) && e.method == m

/-- The for-loop of Web.find: first entry matching, else none. -/
def findLoop (p m : List Nat) : List Entry → Option Entry
  | [] => none
  | t :: rest => if matchesRoute t p m then some t else findLoop p m rest

/-- Web.find: lowercase the path (empty when falsy), lowercase the method
(defaulting to get when falsy), return the first matching entry. -/
def find (tbl : List Entry) (path method : List Nat) : Option Entry :=
  let p := if path.isEmpty then [] else lowerStr path
  let m := if method.isEmpty then bts "get" else lowerStr method
  findLoop p m tbl

end Web

/-- The table is sorted by weakly descending order values (the spec's
stated route-table invariant, checked pairwise on neighbours). -/
def sortedDescB : List Entry → Bool
  | [] => true
  | [_] => true
  | a :: b :: r => (decide (b.order ≤ a.order)) && sortedDescB (b :: r)

/-- Every entry's order field agrees with the registration formula
4 * len(path) + (0 if wildcard else 1). -/
def wfOrdersB (tbl : List Entry) : Bool :=
  tbl.all (fun e => e.order == 4 * e.path.length + (if e.wc then 0 else 1))

/-! ## Flow: per-connection request/response context -/

/-- Python exceptions raised on the paths modelled here. -/
inductive PyErr
  | memoryErr
  | badProtocol
  | valueErr
  | incompleteRead
deriving DecidableEq

/-- An outgoing header value: a scalar, or a sequence emitted as one
header line per element. -/
inductive TailVal
  | s (v : List Nat)
  | seq (vs : List (List Nat))
deriving DecidableEq

/-- The payload descriptor (the self.send attribute).  The shapes
exercised by the claims are modelled: str (UTF-8 encoded on write), raw
bytes, ordered pairs (form-encoded on write), and a chunk sequence
(written chunk by chunk); the JSON-dict and zero-argument-producer
shapes are not needed by any claim. -/
inductive SendVal
  | str (v : List Nat)
  | raw (v : List Nat)
  | pairs (l : List (List Nat × List Nat))
  | chunks (cs : List (List Nat))
deriving DecidableEq

/-- Python dict lookup on an insertion-ordered association list. -/
def dictGet {α : Type} (d : List (List Nat × α)) (k : List Nat) : Option α :=
  (d.find? (fun p => p.1 == k)).map (fun p => p.2)

/-- Python dict store: overwrite in place if the key exists (last write
wins), else append. -/
def dictSet {α : Type} : List (List Nat × α) → List Nat → α → List (List Nat × α)
  | [], k, v => [(k, v)]
  | (k1, v1) :: rest, k, v =>
    if k1 = k then (k, v) :: rest else (k1, v1) :: dictSet rest k v

/-- The per-connection Flow object after _start has returned: parsed
request fields plus response accumulation fields. -/
structure FlowState where
  limit : Nat
  method : List Nat
  ver : List Nat
  path : List Nat
  queryB : List Nat
  head : List (List Nat × List Nat)
  cookie : List (List Nat × List Nat)
  var : List (List Nat × List Nat)
  status : Nat
  reason : List Nat
  tail : List (List Nat × TailVal)
  setcookie : List (List Nat × List Nat)
  send : Option SendVal
deriving DecidableEq

/-- Flow.readlineb over a stream presented as a list of lines (each the
bytes before its newline): reading fails with MemoryError at end of
stream or when the line does not fit the limit-sized buffer; a read line
is stripped of trailing CR/LF. -/
def readlineb (limit : Nat) : List (List Nat) → Option (List Nat × List (List Nat))
  | [] => none
  | l :: rest =>
    if l.length < limit then some (rstripP (fun b => b == 13 || b == 10) l, rest) else none

/-- The cookie-header loop of Flow._start: split on 59, each fragment
split at the first 61, both sides stripped and percent-decoded into the
cookie dict (missing value decodes to the empty string). -/
def cookieParse (ck : List (List Nat × List Nat)) :
    List (List Nat) → Option (List (List Nat × List Nat))
  | [] => some ck
  | v :: rest =>
    let s := splitOnceB 61 v
    match url_decode (stripWs s.1) with
    | none => none
    | some k =>
      match s.2 with
      | some bv =>
        match url_decode (stripWs bv) with
        | none => none
        | some vv => cookieParse (dictSet ck k vv) rest
      | none => cookieParse (dictSet ck k []) rest

/-- The header loop of Flow._start: read lines until an empty one; split
each at the first 58; a cookie header is parsed specially, any other
header populates the header dict (name lowercased and stripped, later
duplicates overwriting). -/
def headerLoop (limit : Nat) :
    List (List Nat) → List (List Nat × List Nat) → List (List Nat × List Nat) →
      Except PyErr (List (List Nat × List Nat) × List (List Nat × List Nat) × List (List Nat))
  | [], _, _ => .error .memoryErr
  | l :: rest, head, cookie =>
    if limit ≤ l.length then .error .memoryErr
    else
      let t := rstripP (fun b => b == 13 || b == 10) l
      if t.isEmpty then .ok (head, cookie, rest)
      else
        let s := splitOnceB 58 t
        let name := lowerStr (stripWs s.1)
        if name = bts "cookie" then
          match s.2 with
          | some v1 =>
            match cookieParse cookie (splitOnP (· == 59) v1) with
            | none => .error .valueErr
            | some cookie2 => headerLoop limit rest head cookie2
          | none => headerLoop limit rest head cookie
        else
          let value := match s.2 with | some v1 => stripWs v1 | none => []
          headerLoop limit rest (dictSet head name value) cookie

/-- Flow._start: read and parse the request line (method, version, path
split off at the first question mark, path decoded/stripped/lowercased
after dropping everything before the first slash), then the header loop,
then initialise the response fields — status 200, reason OK, tail
holding Connection: Close. -/
def Flow.start (limit : Nat) (lines : List (List Nat)) : Except PyErr FlowState :=
  match readlineb limit lines with
  | none => .error .memoryErr
  | some (line, rest) =>
    match splitWs line with
    | t0 :: t1 :: t2 :: _ =>
      let meth := lowerStr (stripWs t0)
      let v := splitOnceB 47 (stripWs t2)
      let ver := match v.2 with | some v1 => stripWs v1 | none => bts "1.1"
      let q := splitOnceB 63 (stripWs t1)
      let pv := splitOnceB 47 (replaceByte 92 47 q.1)
      let pathR : Except PyErr (List Nat) :=
        match pv.2 with
        | some v1 =>
          match url_decode v1 with
          | none => .error .valueErr
          | some pd => .ok (lowerStr (stripWs pd))
        | none => .ok []
      match pathR with
      | .error e => .error e
      | .ok path =>
        let queryB := match q.2 with
          | some q1 => lstripP (fun b => b == 63 || b == 32 || b == 9) (rstripP wsByte q1)
          | none => []
        match headerLoop limit rest [] [] with
        | .error e => .error e
        | .ok (head, cookie, _) =>
          .ok { limit := limit, method := meth, ver := ver, path := path,
                queryB := queryB, head := head, cookie := cookie, var := [],
                status := 200, reason := bts "OK",
                tail := [(bts "Connection", TailVal.s (bts "Close"))],
                setcookie := [], send := none }
    | _ => .error .badProtocol

/-- Flow.readallb when Content-Length is absent or empty: read up to
limit bytes; a read that fills the whole buffer is treated as overflow. -/
def readallbNoLen (limit : Nat) (body : List Nat) : Except PyErr (List Nat) :=
  let t := body.take limit
  if limit ≤ t.length then .error .memoryErr else .ok t

/-- Flow.readallb: with a non-empty Content-Length header, parse it as an
integer, raise MemoryError when it exceeds the limit, else read exactly
that many bytes of the body. -/
def Flow.readallb (head : List (List Nat × List Nat)) (limit : Nat)
    (body : List Nat) : Except PyErr (List Nat) :=
  match dictGet head (bts "content-length") with
  | some v =>
    if v.isEmpty then readallbNoLen limit body
    else
      match pyIntDec v with
      | none => .error .valueErr
      | some n =>
        if limit < n then .error .memoryErr
        else if body.length < n then .error .incompleteRead
        else .ok (body.take n)
  | none => readallbNoLen limit body

/-- Flow.query: decode the raw query bytes captured by _start into
ordered pairs (the source computes this lazily on first call and caches
it; the cached value is this function's result). -/
def Flow.query (st : FlowState) : Option (List (List Nat × List Nat)) :=
  param_decode st.queryB

/-- Decimal digits of a status code, as written by the format call. -/
def natDec (n : Nat) : List Nat := (Nat.toDigits 10 n).map Char.toNat

/-- The response status line HTTP/1.0 status reason CRLF. -/
def statusLineOut (status : Nat) (reason : List Nat) : List Nat :=
  bts "HTTP/1.0 " ++ natDec status ++ [32] ++ reason ++ [13, 10]

/-- One tail entry as header-line bytes: falsy names are skipped, a
sequence value yields one line per element. -/
def headerLineOut (kv : List Nat × TailVal) : List Nat :=
  if kv.1.isEmpty then []
  else
    match kv.2 with
    | .s v => kv.1 ++ bts ": " ++ v ++ [13, 10]
    | .seq vs => joinAll (vs.map (fun t => kv.1 ++ bts ": " ++ t ++ [13, 10]))

/-- One Set-Cookie line: name percent-encoded, value appended verbatim. -/
def cookieLineOut (kv : List Nat × List Nat) : List Nat :=
  if kv.1.isEmpty then []
  else bts "Set-Cookie: " ++ url_encode kv.1 false ++ [61] ++ kv.2 ++ [13, 10]

/-- Body bytes by payload shape. -/
def sendBody : SendVal → List Nat
  | .str v => v
  | .raw v => v
  | .pairs l => param_encode l
  | .chunks cs => joinAll cs

/-- Flow._finish: if no payload descriptor was set, synthesize the
default response (send = the NOT FOUND banner text, status 404, reason
NOROUTER, Content-Type text/plain) before anything is written; then
write status line, tail headers, Set-Cookie lines, a blank line, and the
body.  Returns the final state and the bytes written. -/
def Flow.finish (st : FlowState) : FlowState × List Nat :=
  let st2 :=
    match st.send with
    | none =>
      { st with send := some (.str (bts "!!! NOT FOUND !!!")), status := 404,
                reason := bts "NOROUTER",
                tail := dictSet st.tail (bts "Content-Type")
                  (TailVal.s (bts "text/plain; charset=utf-8")) }
    | some _ => st
  let out :=
    statusLineOut st2.status st2.reason ++
    joinAll (st2.tail.map headerLineOut) ++
    joinAll (st2.setcookie.map cookieLineOut) ++
    [13, 10] ++
    (match st2.send with
     | none => []
     | some sv => sendBody sv)
  (st2, out)

/-! ## Connection dispatcher (server) -/

/-- The fixed error response written when a stage raises. -/
def err500Bytes : List Nat :=
  bts "HTTP/1.0 500 INTERR\r\nContent-Type: text/plain; charset=utf-8\r\n\r\n!!! Internal Error !!!"

/-- Observable dispatcher events, in the order they happen. -/
inductive Ev
  | ranBefore
  | ranMain
  | ranAfter
  | wrote500
  | responded
  | closed
deriving DecidableEq

/-- Run one hook/handler stage: nothing when no route matched, else the
handler (identified by its func id) applied to the flow state, recording
the stage's event.  A handler is an arbitrary state transformer that may
raise. -/
def stageRun (run : Nat → FlowState → Except PyErr FlowState)
    (exe : Option Entry) (ev : Ev) (st : FlowState) :
    List Ev × Except PyErr FlowState :=
  match exe with
  | none => ([], .ok st)
  | some e => ([ev], run e.func st)

/-- The body of the dispatcher's try: parse, before-hook, main handler
(only when no payload descriptor is set yet), after-hook, then the
serialized response; any raise short-circuits to the fixed 500 write. -/
def dispatchTry (limit : Nat) (web : List Entry)
    (run : Nat → FlowState → Except PyErr FlowState)
    (lines : List (List Nat)) : List Ev × List Nat :=
  match Flow.start limit lines with
  | .error _ => ([Ev.wrote500], err500Bytes)
  | .ok st =>
    let s1 := stageRun run (Web.find web st.path (bts ":before")) Ev.ranBefore st
    match s1.2 with
    | .error _ => (s1.1 ++ [Ev.wrote500], err500Bytes)
    | .ok st1 =>
      let mexe := if st1.send.isNone then Web.find web st1.path st1.method else none
      let s2 := stageRun run mexe Ev.ranMain st1
      match s2.2 with
      | .error _ => (s1.1 ++ s2.1 ++ [Ev.wrote500], err500Bytes)
      | .ok st2 =>
        let s3 := stageRun run (Web.find web st2.path (bts ":after")) Ev.ranAfter st2
        match s3.2 with
        | .error _ => (s1.1 ++ s2.1 ++ s3.1 ++ [Ev.wrote500], err500Bytes)
        | .ok st3 =>
          (s1.1 ++ s2.1 ++ s3.1 ++ [Ev.responded], (Flow.finish st3).2)

/-- server.dispatcher: the admission check (clnt <= clients) guards the
whole request lifecycle; an over-limit connection skips it entirely.  In
every case the transport is closed last. -/
def dispatcher (clients clnt limit : Nat) (web : List Entry)
    (run : Nat → FlowState → Except PyErr FlowState)
    (lines : List (List Nat)) : List Ev × List Nat :=
  if clnt ≤ clients then
    let r := dispatchTry limit web run lines
    (r.1 ++ [Ev.closed], r.2)
  else ([Ev.closed], [])

/-! ## Concrete inputs used by the claim theorems -/

/-- A one-entry route table: path a, method get, non-wildcard, order 5. -/
def tblA : List Entry := [⟨5, bts "a", bts "get", false, 1⟩]

/-- A route table with a catch-all before hook. -/
def web3 : List Entry := [⟨0, [], bts ":before", true, 7⟩]

/-- A request head whose Content-Length (2000) exceeds the 1024 limit. -/
def clLines : List (List Nat) := [bts "GET /x HTTP/1.1", bts "content-length: 2000", bts ""]

/-- The spec's request-line example. -/
def c8lines : List (List Nat) := [bts "GET /test/x?a=1&b=2 HTTP/1.1", bts ""]

/-- A freshly parsed flow state with no payload descriptor set. -/
def st0 : FlowState :=
  { limit := 1024, method := bts "get", ver := bts "1.1", path := [],
    queryB := [], head := [], cookie := [], var := [], status := 200,
    reason := bts "OK", tail := [(bts "Connection", TailVal.s (bts "Close"))],
    setcookie := [], send := none }

/-- A sorted, well-formed route table exercising every tie-break case. -/
def tbl0 : List Entry :=
  [⟨9, bts "ab", bts "get", false, 1⟩, ⟨8, bts "ab", bts "get", true, 2⟩,
   ⟨5, bts "a", bts "get", false, 3⟩, ⟨4, bts "a", bts "get", true, 4⟩,
   ⟨1, [], bts "get", false, 5⟩, ⟨0, [], bts ":before", true, 6⟩]

/-- The property claimed of Web.find: when it returns an entry, that
entry matches, is the first match in table order, and has maximal
literal path length among all matches with ties going to a non-wildcard
entry; when it returns none, no entry matches. -/
def findSpecProp (tbl : List Entry) (path method : List Nat) : Prop :=
  (∀ e, Web.find tbl path method = some e →
    Web.matchesRoute e (lowerStr path) (lowerStr method) = true ∧
    (∃ l1 l2, tbl = l1 ++ e :: l2 ∧
      ∀ e2 ∈ l1, Web.matchesRoute e2 (lowerStr path) (lowerStr method) = false) ∧
    (∀ e2 ∈ tbl, Web.matchesRoute e2 (lowerStr path) (lowerStr method) = true →
      e2.path.length ≤ e.path.length ∧
      (e2.path.length = e.path.length → e2.wc = false → e.wc = false))) ∧
  (Web.find tbl path method = none ↔
    ∀ e2 ∈ tbl, Web.matchesRoute e2 (lowerStr path) (lowerStr method) = false)

/-- The amended unescaped byte set of url_encode: letters, hyphen, dot,
underscore, tilde, and the slash unless safe; digits are not included. -/
def amendedUnescaped (safe : Bool) (b : Nat) : Prop :=
  (65 ≤ b ∧ b ≤ 90) ∨ (97 ≤ b ∧ b ≤ 122) ∨ b = 45 ∨ b = 46 ∨ b = 95 ∨
    b = 126 ∨ (b = 47 ∧ safe = false)

/-- The amended per-byte encoding contract: a byte passes unescaped
exactly when it is in the amended unescaped set, and otherwise becomes a
percent escape of two uppercase-hex digit bytes. -/
def encodeByteSpec (safe : Bool) (b : Nat) : Prop :=
  (url_encode [b] safe = [b] ↔ amendedUnescaped safe b) ∧
  (¬ amendedUnescaped safe b →
    url_encode [b] safe = [37, upHexDigit (b / 16), upHexDigit (b % 16)] ∧
    ((48 ≤ upHexDigit (b / 16) ∧ upHexDigit (b / 16) ≤ 57) ∨
      (65 ≤ upHexDigit (b / 16) ∧ upHexDigit (b / 16) ≤ 70)) ∧
    ((48 ≤ upHexDigit (b % 16) ∧ upHexDigit (b % 16) ≤ 57) ∨
      (65 ≤ upHexDigit (b % 16) ∧ upHexDigit (b % 16) ≤ 70)))

/-- The amended default-response contract of Flow._finish on a flow with
no payload descriptor: status 404, reason NOROUTER, plain-text banner
body, and the 404 status line opens the bytes on the wire. -/
def finishDefaultSpec (st : FlowState) : Prop :=
  (Flow.finish st).1.status = 404 ∧
  (Flow.finish st).1.reason = bts "NOROUTER" ∧
  (Flow.finish st).1.send = some (SendVal.str (bts "!!! NOT FOUND !!!")) ∧
  dictGet (Flow.finish st).1.tail (bts "Content-Type") =
    some (TailVal.s (bts "text/plain; charset=utf-8")) ∧
  bts "HTTP/1.0 404 NOROUTER\r\n" <+: (Flow.finish st).2

/-- The amended Connection-Close contract: a serialized response whose
tail still holds the binding initialized by _start contains the header
line on the wire. -/
def connCloseSpec (st : FlowState) : Prop :=
  bts "Connection: Close\r\n" <:+: (Flow.finish st).2

/-! ## Helper lemmas -/

theorem dictGet_dictSet_self {α : Type} (d : List (List Nat × α)) (k : List Nat) (v : α) :
    dictGet (dictSet d k v) k = some v := by
  induction d with
  | nil => simp [dictGet, dictSet]
  | cons p rest ih =>
    by_cases h : p.1 = k
    · simp [dictSet, dictGet, h]
    · simpa [dictSet, dictGet, h, List.find?] using ih

theorem dictGet_dictSet_ne {α : Type} (d : List (List Nat × α)) (k1 k2 : List Nat) (v : α)
    (h : k1 ≠ k2) : dictGet (dictSet d k1 v) k2 = dictGet d k2 := by
  have hb : (k1 == k2) = false := beq_eq_false_iff_ne.mpr h
  induction d with
  | nil => simp [dictGet, dictSet, List.find?, hb]
  | cons p rest ih =>
    rcases p with ⟨ka, va⟩
    by_cases hp : ka = k1
    · subst hp
      simp [dictSet, dictGet, List.find?, hb]
    · by_cases hka : ka = k2
      · subst hka
        simp [dictSet, if_neg hp, dictGet, List.find?]
      · have hka2 : (ka == k2) = false := beq_eq_false_iff_ne.mpr hka
        simp only [dictSet, if_neg hp]
        simp only [dictGet, List.find?, hka2] at ih ⊢
        exact ih

theorem dictGet_mem {α : Type} (d : List (List Nat × α)) (k : List Nat) (v : α)
    (h : dictGet d k = some v) : (k, v) ∈ d := by
  unfold dictGet at h
  obtain ⟨p, hfind, hv⟩ := Option.map_eq_some'.mp h
  have hk : p.1 = k := by
    have := List.find?_some hfind
    exact beq_iff_eq.mp this
  have hmem := List.mem_of_find?_eq_some hfind
  have hp : p = (k, v) := by
    rcases p with ⟨pk, pv⟩
    simp only at hk hv
    rw [hk, hv]
  rw [← hp]
  exact hmem

theorem joinAll_infix_of_mem (x : List Nat) (L : List (List Nat)) (h : x ∈ L) :
    x <:+: joinAll L := by
  induction L with
  | nil => simp at h
  | cons h0 t ih =>
    rcases List.mem_cons.mp h with rfl | hmem
    · exact (List.prefix_append x (joinAll t)).isInfix
    · exact (ih hmem).trans (List.suffix_append h0 (joinAll t)).isInfix

theorem findLoop_decomp (p m : List Nat) :
    ∀ (tbl : List Entry) (e : Entry), Web.findLoop p m tbl = some e →
      Web.matchesRoute e p m = true ∧
      ∃ l1 l2, tbl = l1 ++ e :: l2 ∧ ∀ e2 ∈ l1, Web.matchesRoute e2 p m = false := by
  intro tbl
  induction tbl with
  | nil => intro e h; simp [Web.findLoop] at h
  | cons t rest ih =>
    intro e h
    by_cases hm1 : Web.matchesRoute t p m = true
    · rw [Web.findLoop, if_pos hm1] at h
      obtain rfl : t = e := by injection h
      exact ⟨hm1, [], rest, rfl, by simp⟩
    · rw [Web.findLoop, if_neg hm1] at h
      obtain ⟨hme, l1, l2, htbl, hl1⟩ := ih e h
      refine ⟨hme, t :: l1, l2, by rw [htbl, List.cons_append], ?_⟩
      intro e2 he2
      rcases List.mem_cons.mp he2 with rfl | hmem
      · exact Bool.eq_false_iff.mpr hm1
      · exact hl1 e2 hmem

theorem findLoop_none_iff (p m : List Nat) :
    ∀ tbl : List Entry, Web.findLoop p m tbl = none ↔
      ∀ e2 ∈ tbl, Web.matchesRoute e2 p m = false := by
  intro tbl
  induction tbl with
  | nil => simp [Web.findLoop]
  | cons t rest ih =>
    by_cases hm1 : Web.matchesRoute t p m = true
    · rw [Web.findLoop, if_pos hm1]
      constructor
      · intro h; exact Option.noConfusion h
      · intro h
        have ht := h t (List.mem_cons_self t rest)
        rw [hm1] at ht
        exact Bool.noConfusion ht
    · rw [Web.findLoop, if_neg hm1]
      rw [ih]
      constructor
      · intro h e2 he2
        rcases List.mem_cons.mp he2 with rfl | hmem
        · exact Bool.eq_false_iff.mpr hm1
        · exact h e2 hmem
      · intro h e2 he2; exact h e2 (List.mem_cons_of_mem t he2)

theorem find_eq_findLoop (tbl : List Entry) (path method : List Nat)
    (hm : method.isEmpty = false) :
    Web.find tbl path method = Web.findLoop (lowerStr path) (lowerStr method) tbl := by
  unfold Web.find
  have hp : (if path.isEmpty then ([] : List Nat) else lowerStr path) = lowerStr path := by
    cases path <;> simp [lowerStr]
  rw [hp, if_neg (by simp [hm])]

theorem sortedDescB_tail (a : Entry) (r : List Entry) (h : sortedDescB (a :: r) = true) :
    sortedDescB r = true := by
  cases r with
  | nil => rfl
  | cons b r2 => simp [sortedDescB] at h; exact h.2

theorem sortedDescB_head :
    ∀ (r : List Entry) (a : Entry), sortedDescB (a :: r) = true →
      ∀ x ∈ r, x.order ≤ a.order := by
  intro r
  induction r with
  | nil => intro a _ x hx; simp at hx
  | cons b r2 ih =>
    intro a h x hx
    have h1 : b.order ≤ a.order := by simp [sortedDescB] at h; exact h.1
    have h2 : sortedDescB (b :: r2) = true := by simp [sortedDescB] at h; exact h.2
    rcases List.mem_cons.mp hx with rfl | hmem
    · exact h1
    · exact (ih b h2 x hmem).trans h1

theorem sortedDescB_append :
    ∀ (l1 l2 : List Entry), sortedDescB (l1 ++ l2) = true → sortedDescB l2 = true := by
  intro l1
  induction l1 with
  | nil => intro l2 h; exact h
  | cons a l1t ih => intro l2 h; exact ih l2 (sortedDescB_tail a (l1t ++ l2) h)

theorem wfOrdersB_spec (tbl : List Entry) (hw : wfOrdersB tbl = true) :
    ∀ e ∈ tbl, e.order = 4 * e.path.length + (if e.wc then 0 else 1) := by
  intro e he
  have hb := List.all_eq_true.mp hw e he
  exact beq_iff_eq.mp hb

theorem url_decode_cons_pct (h1 h2 : Nat) (l : List Nat) (a c : Nat)
    (ha : hexDigit h1 = some a) (hc : hexDigit h2 = some c) :
    url_decode (37 :: h1 :: h2 :: l) = (url_decode l).map (fun r => (16 * a + c) :: r) := by
  simp [url_decode, ha, hc]

theorem url_decode_cons_plain (b : Nat) (l : List Nat) (h40 : b ≠ 40) (h37 : b ≠ 37) :
    url_decode (b :: l) = (url_decode l).map (fun r => b :: r) := by
  rcases l with _ | ⟨x, _ | ⟨y, rest⟩⟩ <;> simp [url_decode, h40, h37]

theorem hexDigit_upHexDigit : ∀ d : Nat, d < 16 → hexDigit (upHexDigit d) = some d := by
  decide

theorem url_encode_cons (b : Nat) (l : List Nat) (safe : Bool) :
    url_encode (b :: l) safe = url_encode_byte safe b ++ url_encode l safe := rfl

theorem insertSearch_stuck (tbl : List Entry) (order : Nat) (h : 0 < tbl.length)
    (ho : order < (tbl.get ⟨0, h⟩).order) :
    ∀ fuel, Web.insertSearch tbl order 0 fuel = none := by
  intro fuel
  induction fuel with
  | zero => rfl
  | succ n ih =>
    rw [Web.insertSearch, dif_pos h, if_neg (by omega)]
    exact ih

/-! ## Claim theorems -/

/-- C1: the route-registration claim fails: the insertion-point while
loop never increments its index, so registering a route whose order is
smaller than the head entry's order never terminates.  Registering the
empty path (order 1) into a table whose head has order 5 returns no
result for any amount of fuel. -/
theorem C1_register_diverges : ∀ fuel : Nat,
    Web.register tblA (bts "") (bts "get") 2 fuel = none := by
  intro fuel
  induction fuel with
  | zero => rfl
  | succ n ih => exact ih

/-- C2: the url_decode claim fails on plus signs: the source compares
against byte 0x28 (left parenthesis) where its own comment says plus, so
a+b decodes to itself (not a b) while a(b decodes to a b; the %XX part
of the claim holds (%41 decodes to A). -/
theorem C2_plus_not_decoded :
    url_decode (bts "a+b") = some (bts "a+b") ∧
    url_decode (bts "a+b") ≠ some (bts "a b") ∧
    url_decode (bts "a(b") = some (bts "a b") ∧
    url_decode (bts "%41") = some (bts "A") := by decide

/-- C3 counterexample: with Content-Length 2000 against limit 1024, the
dispatcher parses the head, runs the before hook, and serializes a
response — no MemoryError is raised before the hooks because nothing on
the parse/dispatch path inspects Content-Length. -/
theorem C3_before_hook_runs_unchecked :
    (dispatcher 10 0 1024 web3 (fun _ st => Except.ok st) clLines).1 =
      [Ev.ranBefore, Ev.responded, Ev.closed] ∧
    Ev.wrote500 ∉ (dispatcher 10 0 1024 web3 (fun _ st => Except.ok st) clLines).1 := by
  decide

/-- C3 amended: Flow.readallb raises MemoryError whenever the declared
Content-Length parses to a value above the limit, whatever the body
holds — but only this body accessor performs the check, so it fires only
when a hook or handler reads the body. -/
theorem C3_readallb_over_limit (head : List (List Nat × List Nat)) (limit : Nat)
    (body : List Nat) (v : List Nat) (n : Nat)
    (h1 : dictGet head (bts "content-length") = some v)
    (h2 : pyIntDec v = some n) (h3 : limit < n) :
    Flow.readallb head limit body = .error .memoryErr := by
  unfold Flow.readallb
  rw [h1]
  have hv : v.isEmpty = false := by
    cases v with
    | nil => simp [pyIntDec] at h2
    | cons a t => rfl
  simp [hv, h2, h3]

theorem C3_readallb_over_limit_w :
    (dictGet [(bts "content-length", bts "2000")] (bts "content-length") =
        some (bts "2000") ∧
      pyIntDec (bts "2000") = some 2000 ∧ 1024 < 2000) ∧
    Flow.readallb [(bts "content-length", bts "2000")] 1024 [] = .error .memoryErr :=
  ⟨⟨by decide, by decide, by decide⟩,
    C3_readallb_over_limit [(bts "content-length", bts "2000")] 1024 [] (bts "2000") 2000
      (by decide) (by decide) (by decide)⟩

/-- C8: the request line GET /test/x?a=1&b=2 HTTP/1.1 parses to method
get, path test/x, and the lazy query accessor yields the pairs
(a,1) and (b,2). -/
theorem C8_request_line_example :
    (Flow.start 1024 c8lines).toOption.map (fun st => st.method) = some (bts "get") ∧
    (Flow.start 1024 c8lines).toOption.map (fun st => st.path) = some (bts "test/x") ∧
    (Flow.start 1024 c8lines).toOption.map (fun st => Flow.query st) =
      some (some [(bts "a", bts "1"), (bts "b", bts "2")]) := by decide

/-- C10: a connection accepted while the live-connection counter already
exceeds the clients ceiling is skipped by the admission check: the
dispatcher writes no bytes at all and only closes the transport. -/
theorem C10_over_ceiling_silent (clients clnt limit : Nat) (web : List Entry)
    (run : Nat → FlowState → Except PyErr FlowState) (lines : List (List Nat))
    (h : clients < clnt) :
    dispatcher clients clnt limit web run lines = ([Ev.closed], []) := by
  unfold dispatcher
  rw [if_neg (by omega)]

theorem C10_over_ceiling_silent_w :
    10 < 11 ∧
    dispatcher 10 11 1024 [] (fun _ st => Except.ok st) [] = ([Ev.closed], []) :=
  ⟨by decide,
    C10_over_ceiling_silent 10 11 1024 [] (fun _ st => Except.ok st) [] (by decide)⟩

/-- C4: on a table sorted by descending order with well-formed order
values (the invariant registration maintains), Web.find returns the
first entry in table order matching the lowercased path and method, that
match has maximal literal path length among all matches, equal-length
ties go to a non-wildcard entry, and no match returns none. -/
theorem C4_find_first_longest (tbl : List Entry) (path method : List Nat)
    (hm : method.isEmpty = false) (hs : sortedDescB tbl = true)
    (hw : wfOrdersB tbl = true) : findSpecProp tbl path method := by
  have hfind := find_eq_findLoop tbl path method hm
  constructor
  · intro e he
    rw [hfind] at he
    obtain ⟨hme, l1, l2, htbl, hl1⟩ :=
      findLoop_decomp (lowerStr path) (lowerStr method) tbl e he
    refine ⟨hme, ⟨l1, l2, htbl, hl1⟩, ?_⟩
    intro e2 he2 hme2
    have hemem : e ∈ tbl := by
      rw [htbl]; exact List.mem_append.mpr (Or.inr (List.mem_cons_self e l2))
    have horder : e2.order ≤ e.order := by
      rw [htbl] at he2
      rcases List.mem_append.mp he2 with hin1 | hin2
      · have hfalse := hl1 e2 hin1
        rw [hme2] at hfalse
        exact Bool.noConfusion hfalse
      · rcases List.mem_cons.mp hin2 with rfl | hin3
        · exact le_refl _
        · have hs2 : sortedDescB (e :: l2) = true :=
            sortedDescB_append l1 (e :: l2) (by rw [← htbl]; exact hs)
          exact sortedDescB_head l2 e hs2 e2 hin3
    have hwe := wfOrdersB_spec tbl hw e hemem
    have hwe2 := wfOrdersB_spec tbl hw e2 he2
    have hb1 : 4 * e.path.length ≤ e.order ∧ e.order ≤ 4 * e.path.length + 1 := by
      rw [hwe]; split <;> omega
    have hb2 : 4 * e2.path.length ≤ e2.order ∧ e2.order ≤ 4 * e2.path.length + 1 := by
      rw [hwe2]; split <;> omega
    constructor
    · omega
    · intro hlen hwc2
      cases hx : e.wc with
      | false => rfl
      | true =>
        rw [hx] at hwe
        rw [hwc2] at hwe2
        simp at hwe hwe2
        omega
  · rw [hfind]
    exact findLoop_none_iff (lowerStr path) (lowerStr method) tbl

theorem C4_find_first_longest_w :
    ((bts "GET").isEmpty = false ∧ sortedDescB tbl0 = true ∧ wfOrdersB tbl0 = true) ∧
    findSpecProp tbl0 (bts "ABx") (bts "GET") :=
  ⟨⟨by decide, by decide, by decide⟩,
    C4_find_first_longest tbl0 (bts "ABx") (bts "GET") (by decide) (by decide) (by decide)⟩

/-- C5: decoding an encoded byte string with safe=False restores it:
unescaped bytes are not plus-mapped or percent-consumed (neither 0x28
nor 0x25 is in the unescaped set), and every percent escape produced by
the encoder decodes back to its byte. -/
theorem C5_codec_roundtrip (bs : List Nat) (h : ∀ b ∈ bs, b < 256) :
    url_decode (url_encode bs false) = some bs := by
  induction bs with
  | nil => rfl
  | cons b rest ih =>
    have hb : b < 256 := h b (List.mem_cons_self b rest)
    have hrest := ih (fun x hx => h x (List.mem_cons_of_mem b hx))
    rw [url_encode_cons]
    by_cases hc : (65 ≤ b ∧ b ≤ 90) ∨ (97 ≤ b ∧ b ≤ 122) ∨ b = 45 ∨ b = 46 ∨
        (b = 47 ∧ (false : Bool) = false) ∨ b = 95 ∨ b = 126
    · have hbyte : url_encode_byte false b = [b] := by
        unfold url_encode_byte; rw [if_pos hc]
      have h40 : b ≠ 40 := by
        rcases hc with ⟨h1, h2⟩ | ⟨h1, h2⟩ | rfl | rfl | ⟨rfl, _⟩ | rfl | rfl <;> omega
      have h37 : b ≠ 37 := by
        rcases hc with ⟨h1, h2⟩ | ⟨h1, h2⟩ | rfl | rfl | ⟨rfl, _⟩ | rfl | rfl <;> omega
      rw [hbyte, List.singleton_append, url_decode_cons_plain b _ h40 h37, hrest]
      rfl
    · have hbyte : url_encode_byte false b =
          [37, upHexDigit (b / 16), upHexDigit (b % 16)] := by
        unfold url_encode_byte; rw [if_neg hc]
      have hd1 : b / 16 < 16 := by omega
      have hd2 : b % 16 < 16 := Nat.mod_lt b (by omega)
      rw [hbyte]
      rw [show [37, upHexDigit (b / 16), upHexDigit (b % 16)] ++ url_encode rest false =
            37 :: upHexDigit (b / 16) :: upHexDigit (b % 16) :: url_encode rest false from rfl]
      rw [url_decode_cons_pct _ _ _ _ _ (hexDigit_upHexDigit _ hd1)
        (hexDigit_upHexDigit _ hd2), hrest]
      simp [Nat.div_add_mod]

theorem C5_codec_roundtrip_w :
    (∀ b ∈ bts "aB0 ~/%+", b < 256) ∧
    url_decode (url_encode (bts "aB0 ~/%+") false) = some (bts "aB0 ~/%+") :=
  ⟨by decide, C5_codec_roundtrip (bts "aB0 ~/%+") (by decide)⟩

/-- C6 counterexample: the digit 0 (byte 48) is not left unescaped as
the claim requires: it encodes to the percent escape %30. -/
theorem C6_digit_escaped :
    url_encode (bts "0") false = bts "%30" ∧ url_encode (bts "0") false ≠ bts "0" := by
  decide

/-- C6 amended: a byte below 256 passes url_encode unescaped exactly
when it is a letter, hyphen, dot, underscore, tilde, or (unless safe)
slash — digits are escaped like everything else — and any other byte
becomes a percent escape of two uppercase-hex digit bytes. -/
theorem C6_encode_byte_amended (safe : Bool) (b : Nat) (hb : b < 256) :
    encodeByteSpec safe b := by
  have he : url_encode [b] safe = url_encode_byte safe b := by
    simp [url_encode, joinAll]
  by_cases hc : (65 ≤ b ∧ b ≤ 90) ∨ (97 ≤ b ∧ b ≤ 122) ∨ b = 45 ∨ b = 46 ∨
      (b = 47 ∧ safe = false) ∨ b = 95 ∨ b = 126
  · have hbyte : url_encode [b] safe = [b] := by
      rw [he]; unfold url_encode_byte; rw [if_pos hc]
    have ha : amendedUnescaped safe b := by unfold amendedUnescaped; tauto
    exact ⟨⟨fun _ => ha, fun _ => hbyte⟩, fun hna => absurd ha hna⟩
  · have hbyte : url_encode [b] safe =
        [37, upHexDigit (b / 16), upHexDigit (b % 16)] := by
      rw [he]; unfold url_encode_byte; rw [if_neg hc]
    have hna : ¬ amendedUnescaped safe b := by unfold amendedUnescaped; tauto
    refine ⟨⟨fun heq => ?_, fun ha => absurd ha hna⟩, fun _ => ⟨hbyte, ?_, ?_⟩⟩
    · rw [hbyte] at heq
      exact absurd heq (by simp)
    · have hd : b / 16 < 16 := by omega
      unfold upHexDigit; split <;> omega
    · have hd : b % 16 < 16 := Nat.mod_lt b (by omega)
      unfold upHexDigit; split <;> omega

theorem C6_encode_byte_amended_w : 48 < 256 ∧ encodeByteSpec false 48 :=
  ⟨by decide, C6_encode_byte_amended false 48 (by decide)⟩

/-- C7 counterexample: on a flow with no payload descriptor the
serializer does synthesize a 404, but its reason phrase is NOROUTER,
not NOT FOUND as the claim states (the banner body text is what says
NOT FOUND). -/
theorem C7_reason_norouter :
    (Flow.finish st0).1.status = 404 ∧
    (Flow.finish st0).1.reason = bts "NOROUTER" ∧
    (Flow.finish st0).1.reason ≠ bts "NOT FOUND" := by decide

/-- C7 amended: when no hook or handler set a payload descriptor, the
serializer synthesizes status 404, the plain-text banner body
!!! NOT FOUND !!! with Content-Type text/plain, and reason phrase
NOROUTER, all before anything is written: the wire bytes start with the
404 status line. -/
theorem C7_finish_default (st : FlowState) (h : st.send = none) :
    finishDefaultSpec st := by
  unfold finishDefaultSpec Flow.finish
  rw [h]
  refine ⟨rfl, rfl, rfl, ?_, ?_⟩
  · exact dictGet_dictSet_self st.tail (bts "Content-Type") _
  · have hsl : statusLineOut 404 (bts "NOROUTER") = bts "HTTP/1.0 404 NOROUTER\r\n" := by
      decide
    show bts "HTTP/1.0 404 NOROUTER\r\n" <+:
      statusLineOut 404 (bts "NOROUTER") ++ _ ++ _ ++ _ ++ _
    rw [hsl, List.append_assoc, List.append_assoc, List.append_assoc]
    exact List.prefix_append _ _

theorem C7_finish_default_w : st0.send = none ∧ finishDefaultSpec st0 :=
  ⟨rfl, C7_finish_default st0 rfl⟩

set_option maxRecDepth 8192 in
/-- C9 counterexample: the fixed 500 error response does not contain the
Connection: Close header the claim requires of every response. -/
theorem C9_err500_lacks_close : ¬ (bts "Connection: Close" <:+: err500Bytes) := by
  decide

theorem connection_line_infix (tl : List (List Nat × TailVal))
    (h : dictGet tl (bts "Connection") = some (TailVal.s (bts "Close"))) :
    bts "Connection: Close\r\n" <:+: joinAll (tl.map headerLineOut) := by
  have hmem := dictGet_mem tl _ _ h
  have hx : headerLineOut (bts "Connection", TailVal.s (bts "Close")) =
      bts "Connection: Close\r\n" := by decide
  rw [← hx]
  exact joinAll_infix_of_mem _ _ (List.mem_map_of_mem headerLineOut hmem)

/-- C9 amended: a response serialized by Flow._finish whose tail map
still holds the Connection binding initialized at parse time contains
the Connection: Close header line; the fixed 500 error response written
on handler failure, however, lacks it (see the counterexample). -/
theorem C9_close_header (st : FlowState)
    (h : dictGet st.tail (bts "Connection") = some (TailVal.s (bts "Close"))) :
    connCloseSpec st := by
  unfold connCloseSpec Flow.finish
  cases hsend : st.send with
  | none =>
    have hT : dictGet (dictSet st.tail (bts "Content-Type")
        (TailVal.s (bts "text/plain; charset=utf-8"))) (bts "Connection") =
        some (TailVal.s (bts "Close")) := by
      rw [dictGet_dictSet_ne st.tail _ _ _ (by decide)]; exact h
    have hline := connection_line_infix _ hT
    dsimp only
    rw [List.append_assoc, List.append_assoc]
    exact hline.trans (List.infix_append _ _ _)
  | some sv =>
    have hline := connection_line_infix _ h
    dsimp only
    rw [List.append_assoc, List.append_assoc]
    exact hline.trans (List.infix_append _ _ _)

theorem C9_close_header_w :
    dictGet st0.tail (bts "Connection") = some (TailVal.s (bts "Close")) ∧
    connCloseSpec st0 :=
  ⟨by decide, C9_close_header st0 (by decide)⟩
